import Mathlib

/-!
Shallow embedding of `src/components/ReceiptScanner.tsx` (FinanceManager).

The component's logic is embedded as executable Lean definitions:

* `ReceiptData` — the typed record extracted from a model reply.
* `b64Encode` / `b64Decode` — standard base64, modelling the browser's
  `FileReader.readAsDataURL` payload and `PDFDocument.saveAsBase64` output.
* `fileToGenerativePart` — the file-to-payload encoder (PDF and image branches).
* `parseReply` — the regex-based JSON-span extraction from the model's raw
  text (`text.match` of an open brace, any content, a closing brace, i.e. the
  span from the first open brace to the last closing brace), with the JSON
  decoder itself (`JSON.parse`, a language builtin) passed in abstractly.
* `deriveDescription` — the post-parse derivation of the `description` field.
* `processReceipt` — the full pipeline with its state effects; the external
  generative model is an oracle argument `gen`.
* `Session` / `World` / `run` — the widget's session state machine over drop
  and clear events, with an explicit ledger of allocated and released object
  URL handles (`URL.createObjectURL` / `URL.revokeObjectURL`).

External collaborators (the hosted model, `JSON.parse`, `pdf-lib`, the
browser file reader) are modelled as oracles or as abstract byte-preserving
serialisation, following the interface the component consumes.
-/

namespace ReceiptScanner

/-- The `ReceiptData` record of `ReceiptScanner.tsx` (lines 21-27).  The
`amount` field is carried opaquely: the component never computes with it. -/
structure ReceiptData where
  amount : Option Int
  date : Option String
  description : Option String
  items : Option (List String)
  merchant : Option String
deriving DecidableEq

/-- The transport payload `inlineData` built by `fileToGenerativePart`. -/
structure EncodedPayload where
  data : String
  mimeType : String
deriving DecidableEq

/-! ### Base64

Standard base64 over byte lists (`Nat` values below 256), modelling the
encodings produced by `FileReader.readAsDataURL` and
`PDFDocument.saveAsBase64`. -/

/-- The base64 alphabet in index order. -/
def b64Alphabet : List Char :=
  ['A','B','C','D','E','F','G','H','I','J','K','L','M',
   'N','O','P','Q','R','S','T','U','V','W','X','Y','Z',
   'a','b','c','d','e','f','g','h','i','j','k','l','m',
   'n','o','p','q','r','s','t','u','v','w','x','y','z',
   '0','1','2','3','4','5','6','7','8','9','+','/']

/-- Character of a 6-bit group. -/
def b64Char (n : Nat) : Char := b64Alphabet.getD n 'A'

/-- Index of a base64 character, `none` for characters outside the alphabet. -/
def b64Val (c : Char) : Option Nat :=
  if c ∈ b64Alphabet then some (b64Alphabet.indexOf c) else none

/-- Base64 encoding of a byte list, with `=` padding. -/
def b64Encode : List Nat → List Char
  | [] => []
  | [a] => [b64Char (a / 4), b64Char (a % 4 * 16), '=', '=']
  | [a, b] => [b64Char (a / 4), b64Char (a % 4 * 16 + b / 16), b64Char (b % 16 * 4), '=']
  | a :: b :: c :: rest =>
    b64Char (a / 4) :: b64Char (a % 4 * 16 + b / 16) ::
      b64Char (b % 16 * 4 + c / 64) :: b64Char (c % 64) :: b64Encode rest

/-- Base64 decoding, the inverse of `b64Encode`. -/
def b64Decode : List Char → Option (List Nat)
  | [] => some []
  | c1 :: c2 :: c3 :: c4 :: rest =>
    if c3 = '=' then
      match rest, c4 with
      | [], '=' =>
        match b64Val c1, b64Val c2 with
        | some v1, some v2 => some [v1 * 4 + v2 / 16]
        | _, _ => none
      | _, _ => none
    else if c4 = '=' then
      match rest with
      | [] =>
        match b64Val c1, b64Val c2, b64Val c3 with
        | some v1, some v2, some v3 => some [v1 * 4 + v2 / 16, v2 % 16 * 16 + v3 / 4]
        | _, _, _ => none
      | _ => none
    else
      match b64Val c1, b64Val c2, b64Val c3, b64Val c4, b64Decode rest with
      | some v1, some v2, some v3, some v4, some tl =>
        some ((v1 * 4 + v2 / 16) :: (v2 % 16 * 16 + v3 / 4) :: (v3 % 4 * 64 + v4) :: tl)
      | _, _, _, _, _ => none
  | _ => some []

theorem b64Val_b64Char : ∀ n < 64, b64Val (b64Char n) = some n := by decide

theorem b64Char_ne_pad : ∀ n < 64, b64Char n ≠ '=' := by decide

theorem b64Char_ne_comma (n : Nat) : b64Char n ≠ ',' := by
  by_cases h : n < 64
  · revert h n; decide
  · have hlen : b64Alphabet.length = 64 := rfl
    unfold b64Char
    rw [List.getD_eq_default]
    · decide
    · omega

/-- Decoding inverts encoding on byte lists. -/
theorem b64_roundtrip :
    ∀ bs : List Nat, (∀ x ∈ bs, x < 256) → b64Decode (b64Encode bs) = some bs := by
  intro bs
  induction bs using b64Encode.induct with
  | case1 =>
    intro _
    simp [b64Encode, b64Decode]
  | case2 a =>
    intro h
    have ha : a < 256 := h a (by simp)
    have e1 := b64Val_b64Char (a / 4) (by omega)
    have e2 := b64Val_b64Char (a % 4 * 16) (by omega)
    simp [b64Encode, b64Decode, e1, e2]
    omega
  | case3 a b =>
    intro h
    have ha : a < 256 := h a (by simp)
    have hb : b < 256 := h b (by simp)
    have e1 := b64Val_b64Char (a / 4) (by omega)
    have e2 := b64Val_b64Char (a % 4 * 16 + b / 16) (by omega)
    have e3 := b64Val_b64Char (b % 16 * 4) (by omega)
    have n3 := b64Char_ne_pad (b % 16 * 4) (by omega)
    simp [b64Encode, b64Decode, e1, e2, e3, n3]
    omega
  | case4 a b c rest ih =>
    intro h
    have ha : a < 256 := h a (by simp)
    have hb : b < 256 := h b (by simp)
    have hc : c < 256 := h c (by simp)
    have hrest : ∀ x ∈ rest, x < 256 := fun x hx => h x (by simp [hx])
    have e1 := b64Val_b64Char (a / 4) (by omega)
    have e2 := b64Val_b64Char (a % 4 * 16 + b / 16) (by omega)
    have e3 := b64Val_b64Char (b % 16 * 4 + c / 64) (by omega)
    have e4 := b64Val_b64Char (c % 64) (by omega)
    have n3 := b64Char_ne_pad (b % 16 * 4 + c / 64) (by omega)
    have n4 := b64Char_ne_pad (c % 64) (by omega)
    simp [b64Encode, b64Decode, e1, e2, e3, e4, n3, n4, ih hrest]
    omega

/-! ### File encoding (`fileToGenerativePart`) -/

/-- JavaScript `String.split(sep)` for a one-character separator, on
character lists. -/
def splitOnComma : List Char → List (List Char)
  | [] => [[]]
  | a :: as =>
    match splitOnComma as with
    | [] => [[a]]
    | h :: t => if a = ',' then [] :: h :: t else (a :: h) :: t

/-- A dropped browser `File`: declared MIME type, raw bytes, and — for PDF
files — the page count that `PDFDocument.getPageCount` reports for the
loaded document. -/
structure FileModel where
  type : String
  bytes : List Nat
  pages : Nat

/-- Header part of a base64 data URI, up to (not including) the comma. -/
def dataUrlHeader (mime : String) : List Char :=
  "data:".data ++ mime.data ++ ";base64".data

/-- The `FileReader.readAsDataURL` result for a file. -/
def readAsDataURL (f : FileModel) : List Char :=
  dataUrlHeader f.type ++ ',' :: b64Encode f.bytes

/-- The `PDFDocument.saveAsBase64({ dataUri: true })` output, modelled as the
byte-preserving base64 data URI of the document (the spec treats the PDF
library as a byte-level pass-through). -/
def saveAsBase64DataUri (f : FileModel) : List Char :=
  dataUrlHeader "application/pdf" ++ ',' :: b64Encode f.bytes

/-- Generic failure message thrown for PDF processing errors (line 70). -/
def pdfFailMsg : String := "Failed to process PDF file"

/-- Shallow embedding of `fileToGenerativePart` (ReceiptScanner.tsx lines
49-92).  For `application/pdf` the loaded document's page count is checked
(a zero-page document throws, caught and re-thrown as the generic PDF
failure message), the whole document is re-encoded as a base64 data URI and
the header is stripped with `split(",")[1]`; for every other file the bytes
are read as a data URL and the header stripped the same way.  The reads
themselves are modelled as succeeding. -/
def fileToGenerativePart (f : FileModel) : Except String EncodedPayload :=
  if f.type = "application/pdf" then
    if f.pages = 0 then Except.error pdfFailMsg
    else
      Except.ok
        ⟨String.mk ((splitOnComma (saveAsBase64DataUri f)).getD 1 []),
         "application/pdf"⟩
  else
    Except.ok
      ⟨String.mk ((splitOnComma (readAsDataURL f)).getD 1 []), f.type⟩

theorem comma_not_mem_b64Encode (bs : List Nat) : ',' ∉ b64Encode bs := by
  induction bs using b64Encode.induct with
  | case1 => simp [b64Encode]
  | case2 a =>
    simp only [b64Encode, List.mem_cons, List.not_mem_nil, or_false]
    push_neg
    exact ⟨(b64Char_ne_comma _).symm, (b64Char_ne_comma _).symm, by decide, by decide⟩
  | case3 a b =>
    simp only [b64Encode, List.mem_cons, List.not_mem_nil, or_false]
    push_neg
    exact ⟨(b64Char_ne_comma _).symm, (b64Char_ne_comma _).symm,
      (b64Char_ne_comma _).symm, by decide⟩
  | case4 a b c rest ih =>
    simp only [b64Encode, List.mem_cons]
    push_neg
    exact ⟨(b64Char_ne_comma _).symm, (b64Char_ne_comma _).symm,
      (b64Char_ne_comma _).symm, (b64Char_ne_comma _).symm, ih⟩

theorem splitOnComma_ne_nil (l : List Char) : splitOnComma l ≠ [] := by
  cases l with
  | nil => simp [splitOnComma]
  | cons a as =>
    simp only [splitOnComma]
    cases splitOnComma as with
    | nil => simp
    | cons h t =>
      by_cases hs : a = ','
      · simp [hs]
      · simp [hs]

theorem splitOnComma_not_mem (l : List Char) (h : ',' ∉ l) :
    splitOnComma l = [l] := by
  induction l with
  | nil => rfl
  | cons a as ih =>
    have ha : a ≠ ',' := fun hc => h (by simp [hc])
    have has : ',' ∉ as := fun hc => h (by simp [hc])
    simp only [splitOnComma, ih has]
    simp [ha]

theorem splitOnComma_header (l1 l2 : List Char) (h : ',' ∉ l1) :
    splitOnComma (l1 ++ ',' :: l2) = l1 :: splitOnComma l2 := by
  induction l1 with
  | nil =>
    simp only [List.nil_append, splitOnComma]
    cases hs : splitOnComma l2 with
    | nil => exact absurd hs (splitOnComma_ne_nil l2)
    | cons hd tl => simp
  | cons a as ih =>
    have ha : a ≠ ',' := fun hc => h (by simp [hc])
    have has : ',' ∉ as := fun hc => h (by simp [hc])
    simp only [List.cons_append, splitOnComma, ih has]
    simp only [ha, if_false, ite_false, List.append_eq]
    rw [ih has]

/-- Stripping the data-URI header with `split(",")[1]` recovers exactly the
base64 body when neither header nor body contains a comma. -/
theorem stripHeader (header enc : List Char) (h1 : ',' ∉ header)
    (h2 : ',' ∉ enc) : (splitOnComma (header ++ ',' :: enc)).getD 1 [] = enc := by
  rw [splitOnComma_header _ _ h1, splitOnComma_not_mem _ h2]
  rfl

/-- The image MIME types the widget's file picker lists (spec §6, minus
`application/pdf`). -/
def acceptedImageTypes : List String :=
  ["image/jpeg", "image/jpg", "image/png", "image/heic", "image/heif"]

/-! ### Response parsing

The regex `text.match` at line 129 matches an open brace, any run of
characters, and a closing brace, greedily: the matched span runs from the
first open brace in the text to the last closing brace, and the match fails
exactly when no closing brace follows an open brace. -/

/-- Index of the first occurrence of `c`, if any. -/
def firstIdx (c : Char) : List Char → Option Nat
  | [] => none
  | a :: as => if a = c then some 0 else (firstIdx c as).map (· + 1)

/-- Index of the last occurrence of `c`, if any. -/
def lastIdx (c : Char) : List Char → Option Nat
  | [] => none
  | a :: as =>
    match lastIdx c as with
    | some k => some (k + 1)
    | none => if a = c then some 0 else none

/-- The span selected by the regex at line 129: from the first open brace to
the last closing brace, when the former precedes the latter. -/
def extractJsonSpan (s : List Char) : Option (List Char) :=
  match firstIdx '{' s, lastIdx '}' s with
  | some i, some j => if i < j then some ((s.drop i).take (j + 1 - i)) else none
  | _, _ => none

/-- Errors of the response parsing step (spec §4.3); both are surfaced by the
component as the generic processing failure message. -/
inductive ParseError where
  | noJsonFound
  | malformedJson
deriving DecidableEq

/-- Shallow embedding of the response handling at lines 128-135: extract the
brace span from the raw reply and decode it.  The JSON decoder
(`JSON.parse`, a language builtin) is passed in abstractly as `decode`,
returning `none` exactly when `JSON.parse` would throw. -/
def parseReply (decode : String → Option ReceiptData) (text : String) :
    Except ParseError ReceiptData :=
  match extractJsonSpan text.data with
  | none => Except.error ParseError.noJsonFound
  | some span =>
    match decode (String.mk span) with
    | none => Except.error ParseError.malformedJson
    | some r => Except.ok r

theorem firstIdx_get {c : Char} {s : List Char} {i : Nat}
    (h : firstIdx c s = some i) : s.get? i = some c := by
  induction s generalizing i with
  | nil => simp [firstIdx] at h
  | cons a as ih =>
    by_cases hac : a = c
    · subst hac
      simp only [firstIdx, eq_self_iff_true, if_true, Option.some.injEq] at h
      subst h
      simp
    · simp only [firstIdx, hac, if_false, ite_false, Option.map_eq_some'] at h
      obtain ⟨k, hk, hki⟩ := h
      subst hki
      simpa using ih hk

theorem lastIdx_get {c : Char} {s : List Char} {j : Nat}
    (h : lastIdx c s = some j) : s.get? j = some c := by
  induction s generalizing j with
  | nil => simp [lastIdx] at h
  | cons a as ih =>
    simp only [lastIdx] at h
    cases hl : lastIdx c as with
    | some k =>
      rw [hl] at h
      simp only [Option.some.injEq] at h
      subst h
      simpa using ih hl
    | none =>
      rw [hl] at h
      by_cases hac : a = c
      · subst hac
        simp only [eq_self_iff_true, if_true, Option.some.injEq] at h
        subst h
        simp
      · simp [hac] at h

theorem lastIdx_of_not_mem {c : Char} {s : List Char} (h : c ∉ s) :
    lastIdx c s = none := by
  induction s with
  | nil => rfl
  | cons a as ih =>
    have ha : a ≠ c := fun hc => h (by simp [hc])
    have has : c ∉ as := fun hc => h (by simp [hc])
    simp [lastIdx, ih has, ha]

theorem firstIdx_of {c : Char} {s : List Char} {i : Nat}
    (hg : s.get? i = some c) (hn : c ∉ s.take i) : firstIdx c s = some i := by
  induction s generalizing i with
  | nil => simp at hg
  | cons a as ih =>
    cases i with
    | zero =>
      simp only [List.get?_cons_zero, Option.some.injEq] at hg
      simp [firstIdx, hg]
    | succ k =>
      have ha : a ≠ c := fun hc => hn (by simp [List.take_succ_cons, hc])
      have hn' : c ∉ as.take k := fun hc => hn (by simp [List.take_succ_cons, hc])
      simp only [List.get?_cons_succ] at hg
      simp [firstIdx, ha, ih hg hn']

theorem lastIdx_of {c : Char} {s : List Char} {j : Nat}
    (hg : s.get? j = some c) (hn : c ∉ s.drop (j + 1)) : lastIdx c s = some j := by
  induction s generalizing j with
  | nil => simp at hg
  | cons a as ih =>
    cases j with
    | zero =>
      simp only [List.get?_cons_zero, Option.some.injEq] at hg
      have hn' : c ∉ as := by simpa using hn
      simp [lastIdx, lastIdx_of_not_mem hn', hg]
    | succ k =>
      simp only [List.get?_cons_succ] at hg
      have hn' : c ∉ as.drop (k + 1) := by simpa using hn
      simp [lastIdx, ih hg hn']

/-! ### Description derivation and the processing pipeline -/

/-- JavaScript truthiness of the condition at line 138:
`receiptData.items && receiptData.items.length > 0`. -/
def itemsTruthy (r : ReceiptData) : Bool :=
  match r.items with
  | some l => decide (0 < l.length)
  | none => false

/-- JavaScript truthiness of an optional string (an absent value and the
empty string are both falsy). -/
def jsTruthy : Option String → Bool
  | none => false
  | some s => !s.isEmpty

/-- Shallow embedding of the description derivation at lines 137-145: the
first three items joined by a comma-space with a trailing ellipsis when more
than three exist, else the merchant when truthy, else the record is left
untouched. -/
def deriveDescription (r : ReceiptData) : ReceiptData :=
  if itemsTruthy r then
    let l := r.items.getD []
    let d := String.intercalate ", " (l.take 3) ++ (if 3 < l.length then "..." else "")
    { r with description := some d }
  else if jsTruthy r.merchant then
    { r with description := r.merchant }
  else r

/-- Error message set when the API key is missing (line 97). -/
def apiKeyMsg : String := "API key is not configured. Please add a Gemini API key."

/-- Generic failure message of the catch block at lines 149-153. -/
def processFailMsg : String :=
  "Failed to process receipt. Please try again or enter details manually."

/-- Error message set for a file of unsupported type (line 166). -/
def unsupportedMsg : String := "Please upload an image or PDF file"

/-- The widget's session state (lines 33-36). -/
structure Session where
  isLoading : Bool
  error : Option String
  previewUrl : Option Nat
  fileType : Option String
deriving DecidableEq

/-- Result of one run of `processReceipt`: the final session state, the data
records handed to the caller's `onReceiptData`, the number of calls made to
the external model, and whether the loading state was ever entered. -/
structure ProcResult where
  session : Session
  emitted : List ReceiptData
  modelCalls : Nat
  enteredLoading : Bool
deriving DecidableEq

/-- Shallow embedding of `processReceipt` (lines 95-157).  The external
generative model is the oracle `gen` (one call per reply); `decode` is the
abstract `JSON.parse`.  Every throw inside the `try` block is caught at line
149, setting the generic failure message; the `finally` at line 154 clears
the loading flag on every path. -/
def processReceipt (apiKey : Option String) (decode : String → Option ReceiptData)
    (gen : EncodedPayload → Except String String) (file : FileModel)
    (s : Session) : ProcResult :=
  if jsTruthy apiKey = false then
    ⟨{ s with error := some apiKeyMsg, isLoading := false }, [], 0, false⟩
  else
    let s1 : Session := { s with isLoading := true, error := none }
    match fileToGenerativePart file with
    | Except.error _ =>
      ⟨{ s1 with error := some processFailMsg, isLoading := false }, [], 0, true⟩
    | Except.ok payload =>
      match gen payload with
      | Except.error _ =>
        ⟨{ s1 with error := some processFailMsg, isLoading := false }, [], 1, true⟩
      | Except.ok text =>
        match parseReply decode text with
        | Except.error _ =>
          ⟨{ s1 with error := some processFailMsg, isLoading := false }, [], 1, true⟩
        | Except.ok r =>
          ⟨{ s1 with isLoading := false }, [deriveDescription r], 1, true⟩

/-! ### Session state machine over drop and clear events

Object URL handles are numbered in allocation order; `allocated` and
`released` record every `URL.createObjectURL` and `URL.revokeObjectURL`
call, so leaks and double releases are visible in a run's final state. -/

/-- Session state plus the object-URL handle ledger. -/
structure World where
  session : Session
  nextHandle : Nat
  allocated : List Nat
  released : List Nat
deriving DecidableEq

/-- The initial widget state. -/
def initWorld : World :=
  ⟨⟨false, none, none, none⟩, 0, [], []⟩

/-- User-driven events of the widget: dropping a file (with the model oracle
that run would see) and clicking the remove button. -/
inductive Event where
  | drop (file : FileModel) (gen : EncodedPayload → Except String String)
  | clear

/-- Ambient configuration of a mounted widget: the caller-supplied API key
and the JSON decoder. -/
structure Config where
  apiKey : Option String
  decode : String → Option ReceiptData

/-- Whether the first list is an initial segment of the second. -/
def leadsWith : List Char → List Char → Bool
  | [], _ => true
  | _ :: _, [] => false
  | a :: as, b :: bs => a == b && leadsWith as bs

/-- JavaScript `String.startsWith`, evaluated on the character lists. -/
def strStartsWith (s pre : String) : Bool :=
  leadsWith pre.data s.data

/-- Shallow embedding of `onDrop` (lines 160-190).  A file whose type neither
starts with `image/` nor equals `application/pdf` only sets the unsupported
message.  Otherwise a fresh object URL is allocated for the preview and the
receipt is processed.  The cleanup closure returned at line 187 is faithfully
discarded: `onDrop` is an event callback, so its return value is never
invoked and no handle is released here. -/
def stepDrop (cfg : Config) (w : World) (file : FileModel)
    (gen : EncodedPayload → Except String String) : World :=
  if !strStartsWith file.type "image/" && !(file.type == "application/pdf") then
    { w with session := { w.session with error := some unsupportedMsg } }
  else
    let h := w.nextHandle
    let s1 : Session := { w.session with previewUrl := some h, fileType := some file.type }
    let res := processReceipt cfg.apiKey cfg.decode gen file s1
    { w with session := res.session, nextHandle := h + 1,
             allocated := w.allocated ++ [h] }

/-- Shallow embedding of `clearPreview` (lines 39-46): when a preview is
present its object URL is revoked and the preview, file type and error are
cleared; when no preview is present the function does nothing. -/
def stepClear (w : World) : World :=
  match w.session.previewUrl with
  | some h =>
    { w with
      session := { w.session with previewUrl := none, fileType := none, error := none },
      released := w.released ++ [h] }
  | none => w

/-- One event step of the widget. -/
def step (cfg : Config) (w : World) : Event → World
  | Event.drop file gen => stepDrop cfg w file gen
  | Event.clear => stepClear w

/-- A run of the widget over a list of events. -/
def run (cfg : Config) (w : World) : List Event → World
  | [] => w
  | e :: es => run cfg (step cfg w e) es

/-! ### Helper lemmas and concrete oracles for the claim theorems -/

/-- A model oracle that always fails (e.g. a network error). -/
def genFail : EncodedPayload → Except String String := fun _ => Except.error "network"

/-- A JSON decoder that rejects every span. -/
def decodeFail : String → Option ReceiptData := fun _ => none

/-- `processReceipt` never touches the preview or the stored file type. -/
theorem processReceipt_preserves_preview (apiKey : Option String)
    (decode : String → Option ReceiptData)
    (gen : EncodedPayload → Except String String) (file : FileModel) (s : Session) :
    (processReceipt apiKey decode gen file s).session.previewUrl = s.previewUrl ∧
    (processReceipt apiKey decode gen file s).session.fileType = s.fileType := by
  by_cases hk : jsTruthy apiKey = false
  · simp [processReceipt, hk]
  · cases henc : fileToGenerativePart file with
    | error m => simp [processReceipt, hk, henc]
    | ok p =>
      cases hgen : gen p with
      | error m => simp [processReceipt, hk, henc, hgen]
      | ok t =>
        cases hp : parseReply decode t with
        | error e => simp [processReceipt, hk, henc, hgen, hp]
        | ok r => simp [processReceipt, hk, henc, hgen, hp]

/-! ### Claim theorems -/

/-- C1 counterexample: a successfully parsed reply that carries neither
items nor merchant but does carry a `description` field keeps that value —
the derived description is not left unset as the claim states. -/
theorem c1_counterexample :
    (deriveDescription ⟨none, none, some "x", none, none⟩).description = some "x" := by
  decide

/-- C1 (amended): for every parsed record, when `items` is non-empty the
derived description is the first three items joined by a comma-space with a
trailing ellipsis when more than three exist; when `items` is empty or
absent and `merchant` is a non-empty string it equals the merchant value;
otherwise the description is left unchanged from the parsed record — hence
unset exactly when the model supplied none. -/
theorem c1_description (r : ReceiptData) :
    (∀ l, r.items = some l → l ≠ [] →
      (deriveDescription r).description =
        some (String.intercalate ", " (l.take 3) ++ (if 3 < l.length then "..." else "")))
  ∧ (∀ m, (r.items = none ∨ r.items = some []) → r.merchant = some m → m ≠ "" →
      (deriveDescription r).description = some m)
  ∧ ((r.items = none ∨ r.items = some []) → (r.merchant = none ∨ r.merchant = some "") →
      (deriveDescription r).description = r.description) := by
  refine ⟨?_, ?_, ?_⟩
  · intro l hl hne
    have ht : itemsTruthy r = true := by
      simp [itemsTruthy, hl, List.length_pos.mpr hne]
    simp [deriveDescription, ht, hl]
  · intro m hi hm hne
    have ht : itemsTruthy r = false := by
      rcases hi with h | h <;> simp [itemsTruthy, h]
    have hme : m.isEmpty = false := by
      cases hc : m.isEmpty
      · rfl
      · exact absurd ((String.isEmpty_iff m).mp hc) hne
    have hj : jsTruthy (some m) = true := by simp [jsTruthy, hme]
    simp [deriveDescription, ht, hm, hj]
  · intro hi hm
    have ht : itemsTruthy r = false := by
      rcases hi with h | h <;> simp [itemsTruthy, h]
    have hj : jsTruthy r.merchant = false := by
      rcases hm with h | h
      · simp [jsTruthy, h]
      · rw [h]
        rfl
    simp [deriveDescription, ht, hj]

/-- Witness for C1 at the spec's own example: four items derive
`milk, eggs, bread...`. -/
theorem c1_description_witness :
    (deriveDescription ⟨none, none, none, some ["milk", "eggs", "bread", "soap"], none⟩).description
      = some "milk, eggs, bread..." := by
  have h := (c1_description ⟨none, none, none, some ["milk", "eggs", "bread", "soap"], none⟩).1
    ["milk", "eggs", "bread", "soap"] rfl (by decide)
  rw [h]
  decide

/-- C2: response parsing selects exactly the span from the first open brace
to the last closing brace of the raw reply; when no open brace precedes a
closing brace it fails with the no-JSON-found error, when the decoder
rejects the selected span it fails with the malformed-JSON error, and
otherwise it returns the decoded record (before description derivation). -/
theorem c2_parseReply (decode : String → Option ReceiptData) (text : String) :
    ((¬ ∃ i j, i < j ∧ text.data.get? i = some '{' ∧ text.data.get? j = some '}') →
      parseReply decode text = Except.error ParseError.noJsonFound)
  ∧ (∀ i j, i < j →
      text.data.get? i = some '{' → '{' ∉ text.data.take i →
      text.data.get? j = some '}' → '}' ∉ text.data.drop (j + 1) →
      parseReply decode text =
        match decode (String.mk ((text.data.drop i).take (j + 1 - i))) with
        | none => Except.error ParseError.malformedJson
        | some r => Except.ok r) := by
  constructor
  · intro hno
    have hext : extractJsonSpan text.data = none := by
      unfold extractJsonSpan
      cases hf : firstIdx '{' text.data with
      | none => rfl
      | some i =>
        cases hl : lastIdx '}' text.data with
        | none => rfl
        | some j =>
          by_cases hij : i < j
          · exact absurd ⟨i, j, hij, firstIdx_get hf, lastIdx_get hl⟩ hno
          · simp [hij]
    unfold parseReply
    rw [hext]
  · intro i j hij hgi hti hgj htj
    have hf : firstIdx '{' text.data = some i := firstIdx_of hgi hti
    have hl : lastIdx '}' text.data = some j := lastIdx_of hgj htj
    have hext : extractJsonSpan text.data = some ((text.data.drop i).take (j + 1 - i)) := by
      unfold extractJsonSpan
      rw [hf, hl]
      show (if i < j then some ((text.data.drop i).take (j + 1 - i)) else none) = _
      rw [if_pos hij]
    unfold parseReply
    rw [hext]

/-- Witness for C2 on a concrete reply: the span between the braces of
`ab{cd}e` is selected and handed to the decoder, which rejects it. -/
theorem c2_parseReply_witness :
    parseReply decodeFail "ab{cd}e" = Except.error ParseError.malformedJson := by
  have h := (c2_parseReply decodeFail "ab{cd}e").2 2 5 (by omega)
    (by decide) (by decide) (by decide) (by decide)
  exact h

/-- C3: dropping a second receipt replaces the preview without revoking the
first object URL — the cleanup closure returned from `onDrop` is discarded
by the dropzone — so after two accepted drops and a clear, handles 0 and 1
were both allocated but only handle 1 was ever released: the replaced handle
is never released, and two handles were active at once after the second
drop. -/
theorem c3_replaced_handle_leaks :
    (run ⟨some "key", decodeFail⟩ initWorld
      [Event.drop ⟨"image/png", [1], 0⟩ genFail,
       Event.drop ⟨"image/png", [2], 0⟩ genFail,
       Event.clear]).allocated = [0, 1] ∧
    (run ⟨some "key", decodeFail⟩ initWorld
      [Event.drop ⟨"image/png", [1], 0⟩ genFail,
       Event.drop ⟨"image/png", [2], 0⟩ genFail,
       Event.clear]).released = [1] := by
  decide

/-- C4 counterexample: `image/gif` is not among the six listed MIME types,
yet dropping such a file is accepted into Previewing — a preview handle is
allocated and no unsupported-type error is set. -/
theorem c4_counterexample :
    ("image/gif" ∉ acceptedImageTypes ∧ "image/gif" ≠ "application/pdf") ∧
    (run ⟨some "key", decodeFail⟩ initWorld
      [Event.drop ⟨"image/gif", [1], 0⟩ genFail]).session.previewUrl = some 0 ∧
    (run ⟨some "key", decodeFail⟩ initWorld
      [Event.drop ⟨"image/gif", [1], 0⟩ genFail]).session.error ≠ some unsupportedMsg := by
  decide

/-- C4 (amended): a drop is accepted into Previewing exactly when the file's
MIME type starts with `image/` or equals `application/pdf` — all six listed
types satisfy this, but so does every other `image/` subtype (such as
`image/gif`); for a file of any non-matching type the session sets the
unsupported-type error and creates no preview, leaving previewUrl, fileType
and the handle ledger unchanged. -/
theorem c4_drop_filter (cfg : Config) (w : World) (f : FileModel)
    (gen : EncodedPayload → Except String String) :
    (strStartsWith f.type "image/" = false → f.type ≠ "application/pdf" →
      (stepDrop cfg w f gen).session.previewUrl = w.session.previewUrl ∧
      (stepDrop cfg w f gen).session.fileType = w.session.fileType ∧
      (stepDrop cfg w f gen).session.error = some unsupportedMsg ∧
      (stepDrop cfg w f gen).allocated = w.allocated)
  ∧ (strStartsWith f.type "image/" = true ∨ f.type = "application/pdf" →
      (stepDrop cfg w f gen).session.previewUrl = some w.nextHandle ∧
      (stepDrop cfg w f gen).session.fileType = some f.type ∧
      (stepDrop cfg w f gen).allocated = w.allocated ++ [w.nextHandle])
  ∧ (∀ t ∈ acceptedImageTypes, strStartsWith t "image/" = true) := by
  refine ⟨?_, ?_, by decide⟩
  · intro hs hp
    have hb : (f.type == "application/pdf") = false := by
      simpa using hp
    simp [stepDrop, hs, hb]
  · intro hacc
    have hcond : (!strStartsWith f.type "image/" && !(f.type == "application/pdf")) = false := by
      rcases hacc with h | h <;> simp [h]
    have hpre := processReceipt_preserves_preview cfg.apiKey cfg.decode gen f
      { w.session with previewUrl := some w.nextHandle, fileType := some f.type }
    refine ⟨?_, ?_, ?_⟩ <;> simp [stepDrop, hcond, hpre.1, hpre.2]

/-- Witness for C4 on concrete drops: `text/plain` is rejected with the
unsupported-type message and `image/jpeg` is accepted into Previewing. -/
theorem c4_drop_filter_witness :
    (stepDrop ⟨some "key", decodeFail⟩ initWorld ⟨"text/plain", [1], 0⟩ genFail).session.error
      = some unsupportedMsg ∧
    (stepDrop ⟨some "key", decodeFail⟩ initWorld ⟨"image/jpeg", [1], 0⟩ genFail).session.previewUrl
      = some 0 := by
  constructor
  · exact ((c4_drop_filter ⟨some "key", decodeFail⟩ initWorld ⟨"text/plain", [1], 0⟩ genFail).1
      (by decide) (by decide)).2.2.1
  · exact ((c4_drop_filter ⟨some "key", decodeFail⟩ initWorld ⟨"image/jpeg", [1], 0⟩ genFail).2.1
      (Or.inl (by decide))).1

/-- C5: with the API key absent, processing sets the missing-key error,
returns with the loading flag false, never enters the loading state and
makes no call to the external model. -/
theorem c5_missing_key (decode : String → Option ReceiptData)
    (gen : EncodedPayload → Except String String) (file : FileModel) (s : Session) :
    processReceipt none decode gen file s =
      ⟨{ s with error := some apiKeyMsg, isLoading := false }, [], 0, false⟩ := by
  rfl

/-- C6 counterexample: after an unsupported drop the session holds an error
and no preview; clear is then a no-op, so the session does not end in Idle
with the error cleared as the claim states. -/
theorem c6_counterexample :
    (run ⟨some "key", decodeFail⟩ initWorld
      [Event.drop ⟨"text/plain", [1], 0⟩ genFail, Event.clear]).session.error
      = some unsupportedMsg := by
  decide

/-- C6 (amended): from every session state in which a preview is present —
the only states in which the widget renders the remove button — clear
releases exactly that preview's handle once and leaves previewUrl, fileType
and error all cleared, the loading flag and the allocation ledger untouched;
from a state with no preview, clear is a no-op and in particular does not
clear the error. -/
theorem c6_clear (w : World) (h : Nat) (hp : w.session.previewUrl = some h) :
    (stepClear w).session.previewUrl = none ∧
    (stepClear w).session.fileType = none ∧
    (stepClear w).session.error = none ∧
    (stepClear w).session.isLoading = w.session.isLoading ∧
    (stepClear w).released = w.released ++ [h] ∧
    (stepClear w).allocated = w.allocated := by
  unfold stepClear
  rw [hp]
  simp

/-- Witness for C6 on a concrete previewing state. -/
theorem c6_clear_witness :
    (stepClear ⟨⟨false, none, some 0, some "image/png"⟩, 1, [0], []⟩).released = [0] := by
  have hw := c6_clear ⟨⟨false, none, some 0, some "image/png"⟩, 1, [0], []⟩ 0 rfl
  simpa using hw.2.2.2.2.1

/-- C7: for every file of one of the accepted image (non-PDF) MIME types,
encoding succeeds with a payload whose mimeType equals the file's declared
type and whose base64 data decodes back to exactly the original bytes. -/
theorem c7_image_roundtrip (f : FileModel) (hty : f.type ∈ acceptedImageTypes)
    (hb : ∀ x ∈ f.bytes, x < 256) :
    ∃ p, fileToGenerativePart f = Except.ok p ∧
      p.mimeType = f.type ∧ b64Decode p.data.data = some f.bytes := by
  have hpdf : f.type ≠ "application/pdf" := by
    simp only [acceptedImageTypes, List.mem_cons, List.not_mem_nil, or_false] at hty
    rcases hty with h | h | h | h | h <;> rw [h] <;> decide
  have hcomma : ',' ∉ dataUrlHeader f.type := by
    simp only [acceptedImageTypes, List.mem_cons, List.not_mem_nil, or_false] at hty
    rcases hty with h | h | h | h | h <;> rw [h] <;> decide
  refine ⟨⟨String.mk ((splitOnComma (readAsDataURL f)).getD 1 []), f.type⟩, ?_, rfl, ?_⟩
  · simp [fileToGenerativePart, hpdf]
  · show b64Decode ((splitOnComma (readAsDataURL f)).getD 1 []) = some f.bytes
    unfold readAsDataURL
    rw [stripHeader _ _ hcomma (comma_not_mem_b64Encode f.bytes)]
    exact b64_roundtrip f.bytes hb

/-- Witness for C7 on a concrete PNG file of four bytes. -/
theorem c7_image_roundtrip_witness :
    ∃ p, fileToGenerativePart ⟨"image/png", [1, 2, 3, 255], 0⟩ = Except.ok p ∧
      p.mimeType = "image/png" ∧ b64Decode p.data.data = some [1, 2, 3, 255] :=
  c7_image_roundtrip ⟨"image/png", [1, 2, 3, 255], 0⟩ (by decide) (by decide)

/-- C8: for every file declared `application/pdf`, encoding fails when the
loaded document has zero pages, and otherwise yields the base64 re-encoding
of the whole PDF bytes with the data-URI header stripped — the data decodes
back to the full document bytes, so no page is rasterized — reported with
mimeType `application/pdf`. -/
theorem c8_pdf_passthrough (f : FileModel) (hty : f.type = "application/pdf")
    (hb : ∀ x ∈ f.bytes, x < 256) :
    (f.pages = 0 → fileToGenerativePart f = Except.error pdfFailMsg)
  ∧ (0 < f.pages →
      fileToGenerativePart f =
        Except.ok ⟨String.mk (b64Encode f.bytes), "application/pdf"⟩ ∧
      b64Decode (b64Encode f.bytes) = some f.bytes) := by
  constructor
  · intro hz
    simp [fileToGenerativePart, hty, hz]
  · intro hpos
    have hz : f.pages ≠ 0 := by omega
    refine ⟨?_, b64_roundtrip f.bytes hb⟩
    have hstrip : (splitOnComma (saveAsBase64DataUri f)).getD 1 [] = b64Encode f.bytes := by
      unfold saveAsBase64DataUri
      exact stripHeader _ _ (by decide) (comma_not_mem_b64Encode f.bytes)
    unfold fileToGenerativePart
    rw [hty, if_pos rfl, if_neg hz, hstrip]

/-- Witness for C8 on a concrete one-page PDF of four bytes. -/
theorem c8_pdf_passthrough_witness :
    fileToGenerativePart ⟨"application/pdf", [37, 80, 68, 70], 1⟩ =
      Except.ok ⟨String.mk (b64Encode [37, 80, 68, 70]), "application/pdf"⟩ :=
  ((c8_pdf_passthrough ⟨"application/pdf", [37, 80, 68, 70], 1⟩ rfl (by decide)).2
    (by decide)).1

/-- C9: the caller callback receives exactly one record — with the session's
error state clear at that point — when the key is present and encoding, the
model call and parsing all succeed, and receives nothing when any stage
fails. -/
theorem c9_callback (apiKey : Option String) (decode : String → Option ReceiptData)
    (gen : EncodedPayload → Except String String) (file : FileModel) (s : Session) :
    (∃ p t r, jsTruthy apiKey = true ∧ fileToGenerativePart file = Except.ok p ∧
        gen p = Except.ok t ∧ parseReply decode t = Except.ok r ∧
        (processReceipt apiKey decode gen file s).emitted = [deriveDescription r] ∧
        (processReceipt apiKey decode gen file s).session.error = none)
  ∨ ((jsTruthy apiKey = false ∨
        (∃ m, fileToGenerativePart file = Except.error m) ∨
        (∃ p m, fileToGenerativePart file = Except.ok p ∧ gen p = Except.error m) ∨
        (∃ p t e, fileToGenerativePart file = Except.ok p ∧ gen p = Except.ok t ∧
          parseReply decode t = Except.error e)) ∧
      (processReceipt apiKey decode gen file s).emitted = []) := by
  by_cases hk : jsTruthy apiKey = false
  · exact Or.inr ⟨Or.inl hk, by simp [processReceipt, hk]⟩
  · have hk' : jsTruthy apiKey = true := by simpa using hk
    cases henc : fileToGenerativePart file with
    | error m =>
      exact Or.inr ⟨Or.inr (Or.inl ⟨m, rfl⟩), by simp [processReceipt, hk, henc]⟩
    | ok p =>
      cases hgen : gen p with
      | error m =>
        exact Or.inr ⟨Or.inr (Or.inr (Or.inl ⟨p, m, rfl, hgen⟩)),
          by simp [processReceipt, hk, henc, hgen]⟩
      | ok t =>
        cases hp : parseReply decode t with
        | error e =>
          exact Or.inr ⟨Or.inr (Or.inr (Or.inr ⟨p, t, e, rfl, hgen, hp⟩)),
            by simp [processReceipt, hk, henc, hgen, hp]⟩
        | ok r =>
          exact Or.inl ⟨p, t, r, hk', rfl, hgen, hp,
            by simp [processReceipt, hk, henc, hgen, hp],
            by simp [processReceipt, hk, henc, hgen, hp]⟩

/-- C10: after every terminating run of `processReceipt` — early return on a
missing key, success, or failure at any stage — the loading flag is false. -/
theorem c10_loading_cleared (apiKey : Option String)
    (decode : String → Option ReceiptData)
    (gen : EncodedPayload → Except String String) (file : FileModel) (s : Session) :
    (processReceipt apiKey decode gen file s).session.isLoading = false := by
  by_cases hk : jsTruthy apiKey = false
  · simp [processReceipt, hk]
  · cases henc : fileToGenerativePart file with
    | error m => simp [processReceipt, hk, henc]
    | ok p =>
      cases hgen : gen p with
      | error m => simp [processReceipt, hk, henc, hgen]
      | ok t =>
        cases hp : parseReply decode t with
        | error e => simp [processReceipt, hk, henc, hgen, hp]
        | ok r => simp [processReceipt, hk, henc, hgen, hp]

end ReceiptScanner
